import Mathlib

/-!
Shallow embedding of the crosspost bot's scheduled-post delivery core
(`crosspost_bot/database.py`, `crosspost_bot/scheduler.py`,
`crosspost_bot/services/vk_client.py`) together with proofs of the
specification's claims about it.

Conventions of the embedding:
* PostgreSQL rows become Lean structures; the `scheduled_posts` and
  `channels` tables become lists of rows inside `DBState`.
* Timestamps are modelled as `Int` (an absolute instant); `NOW()` is an
  explicit parameter.
* SQL `NULL`able columns become `Option`.
* Python exceptions become `Option`/explicit success flags: a platform
  call that may raise is driven by an environment `ε : PlatformCall → Bool`
  saying whether that concrete call succeeds, and a Python function that
  can raise `ValueError` returns `Option`.
-/

namespace CrosspostBot

/-- The `status` column of `scheduled_posts`: `TEXT DEFAULT 'pending'`,
written only with the literals `'pending'`, `'sent'`, `'failed'`. -/
inductive Status where
  | pending
  | sent
  | failed
deriving DecidableEq, Repr

/-- One element of the `media` JSONB array of a scheduled post, as produced
by the bot: a Telegram `file_id` plus an optional `file_unique_id`. -/
structure MediaItem where
  file_id : String
  file_unique_id : Option String
deriving DecidableEq, Repr

/-- A row of the `scheduled_posts` table (database.py `create_tables`). -/
structure ScheduledPost where
  id : Nat
  channel_id : Nat
  user_id : Option Int
  text : Option String
  media : List MediaItem
  scheduled_for : Int
  status : Status
  sent_at : Option Int
deriving DecidableEq, Repr

/-- A row of the `channels` table (database.py `create_tables`). -/
structure Channel where
  id : Nat
  name : String
  telegram_channel : String
  vk_group_id : String
  is_active : Bool
deriving DecidableEq, Repr

/-- The tables the scheduler core touches. -/
structure DBState where
  channels : List Channel
  posts : List ScheduledPost
deriving DecidableEq, Repr

/-- A row returned by `Database.due_posts`: `SELECT sp.*, c.telegram_channel,
c.vk_group_id`. -/
structure DuePostRow where
  post : ScheduledPost
  telegram_channel : String
  vk_group_id : String
deriving DecidableEq, Repr

/-- The `JOIN channels c ON sp.channel_id = c.id` of `due_posts`, before the
`WHERE` clause: every (post, channel) pair with matching ids yields a row. -/
def joinRows (db : DBState) : List DuePostRow :=
  db.posts.flatMap fun p =>
    (db.channels.filter fun c => c.id == p.channel_id).map fun c =>
      ⟨p, c.telegram_channel, c.vk_group_id⟩

/-- The `WHERE sp.status = 'pending' AND sp.scheduled_for <= NOW()` clause. -/
def dueFilter (now : Int) (r : DuePostRow) : Bool :=
  r.post.status == Status.pending && decide (r.post.scheduled_for ≤ now)

/-- Ordering used by `ORDER BY sp.scheduled_for`. -/
def dueLE (a b : DuePostRow) : Prop :=
  a.post.scheduled_for ≤ b.post.scheduled_for

instance : DecidableRel dueLE := fun a b => by
  unfold dueLE; infer_instance

instance : IsTotal DuePostRow dueLE :=
  ⟨fun a b => Int.le_total a.post.scheduled_for b.post.scheduled_for⟩

instance : IsTrans DuePostRow dueLE :=
  ⟨fun _ _ _ hab hbc => le_trans hab hbc⟩

/-- `Database.due_posts` (database.py lines 293-304): join `scheduled_posts`
with `channels`, keep pending rows due by `now`, order by `scheduled_for`,
`LIMIT 25`. A pure read: it returns a value and leaves `db` untouched. -/
def due_posts (db : DBState) (now : Int) : List DuePostRow :=
  (((joinRows db).filter (dueFilter now)).insertionSort dueLE).take 25

/-- The effect of `SET status = %s, sent_at = NOW()` on one row. -/
def markPost (status : Status) (now : Int) (p : ScheduledPost) :
    ScheduledPost :=
  { p with status := status, sent_at := some now }

/-- `Database.mark_post_sent` (database.py lines 306-314):
`UPDATE scheduled_posts SET status = %s, sent_at = NOW() WHERE id = %s`.
The update is unconditional on the current status. -/
def mark_post_sent (db : DBState) (post_id : Nat) (status : Status)
    (now : Int) : DBState :=
  { db with
    posts := db.posts.map fun p =>
      if p.id == post_id then markPost status now p else p }

/-- `Database.schedule_post` (database.py lines 271-291): `INSERT INTO
scheduled_posts (channel_id, user_id, text, media, scheduled_for)` — the
new row takes the column defaults `status = 'pending'` and `sent_at =
NULL`; `new_id` is the `SERIAL` key the insert assigns. -/
def schedule_post (db : DBState) (new_id : Nat) (channel_id : Nat)
    (user_id : Option Int) (text : Option String) (media : List MediaItem)
    (scheduled_for : Int) : DBState :=
  { db with
    posts := db.posts ++
      [⟨new_id, channel_id, user_id, text, media, scheduled_for,
        Status.pending, none⟩] }

/-- Look a post up by its primary key. -/
def getPost (db : DBState) (post_id : Nat) : Option ScheduledPost :=
  db.posts.find? fun p => p.id == post_id

/-! ## Scheduler (scheduler.py) -/

/-- One outbound platform call the worker can make. The VK delivery
(`_send_to_vk` followed by `VKClient.post_to_group`) is one attempt unit
carrying the group id, the text and the filenames of the downloaded media
(`f"{item.get('file_unique_id', 'photo')}.jpg"`); the raw bytes are
external data and are not part of the call's identity. -/
inductive PlatformCall where
  | tgSendMessage (chat_id : String) (text : String)
  | tgSendPhoto (chat_id : String) (photo : String) (caption : String)
  | tgSendMediaGroup (chat_id : String) (media : List (String × Option String))
  | vkWallPost (group_id : String) (message : Option String)
      (photo_files : List String)
deriving DecidableEq, Repr

/-- Filename built by `_send_to_vk` for a downloaded media item. -/
def vkFilename (item : MediaItem) : String :=
  item.file_unique_id.getD "photo" ++ ".jpg"

/-- `ScheduledPostWorker._send_to_telegram` (scheduler.py lines 62-86),
as the single Telegram call it issues: no media → `send_message`;
exactly one item → `send_photo` with `caption=text or ""`; otherwise
`send_media_group` where item `index` gets `caption = text if index == 0
else None`. -/
def send_to_telegram (channel : String) (text : Option String)
    (media : List MediaItem) : PlatformCall :=
  match media with
  | [] => .tgSendMessage channel (text.getD "")
  | [item] => .tgSendPhoto channel item.file_id (text.getD "")
  | items =>
      .tgSendMediaGroup channel
        (items.enum.map fun it =>
          (it.2.file_id, if it.1 == 0 then text else none))

/-- `ScheduledPostWorker._send_to_vk` (scheduler.py lines 88-103), as the
wall-post attempt it makes after downloading each media item's bytes. -/
def send_to_vk (group_id : String) (text : Option String)
    (media : List MediaItem) : PlatformCall :=
  .vkWallPost group_id text (media.map vkFilename)

/-- Result of `_send_post` on one post: which platform calls were attempted
(in order) and whether the whole delivery succeeded (no exception). -/
structure SendResult where
  attempted : List PlatformCall
  ok : Bool
deriving DecidableEq, Repr

/-- `ScheduledPostWorker._send_post` (scheduler.py lines 53-60): the
Telegram call, then — only if it did not raise — the VK call, the
exception of either propagating to the caller. `ε c = true` means the
concrete platform call `c` succeeds; `ε c = false` means it raises. -/
def send_post (ε : PlatformCall → Bool) (row : DuePostRow) : SendResult :=
  let tg := send_to_telegram row.telegram_channel row.post.text row.post.media
  if ε tg then
    let vk := send_to_vk row.vk_group_id row.post.text row.post.media
    ⟨[tg, vk], ε vk⟩
  else ⟨[tg], false⟩

/-- The worker loop body for one post (scheduler.py lines 40-45): try
`_send_post`; on success `mark_post_sent(id)` (status `sent`), on any
exception `mark_post_sent(id, status="failed")`. Both outcomes yield a
database state — the exception is consumed here and never propagates. -/
def processPost (ε : PlatformCall → Bool) (now : Int) (db : DBState)
    (row : DuePostRow) : DBState :=
  if (send_post ε row).ok then mark_post_sent db row.post.id .sent now
  else mark_post_sent db row.post.id .failed now

/-- One iteration of `ScheduledPostWorker._run` (scheduler.py lines 38-45):
fetch the due batch once, then process each of its posts sequentially. -/
def runIteration (ε : PlatformCall → Bool) (db : DBState) (now : Int) :
    DBState :=
  (due_posts db now).foldl (processPost ε now) db

/-- `ScheduledPostWorker._run`'s loop (scheduler.py lines 37-49): the stop
event is consulted only at the top of the `while`; between two
consultations a full iteration (fetch plus processing of the whole batch)
runs. `stopSet n` tells whether the stop event is set when the `while`
condition is checked for the `n`-th time; `nows n` is `NOW()` during
iteration `n`; `fuel` bounds the number of iterations modelled. -/
def runLoop (ε : PlatformCall → Bool) (stopSet : Nat → Bool)
    (nows : Nat → Int) : Nat → Nat → DBState → DBState
  | _, 0, db => db
  | n, fuel + 1, db =>
      if stopSet n then db
      else runLoop ε stopSet nows (n + 1) fuel (runIteration ε db (nows n))

/-- The database state after the first `n` completed iterations. -/
def loopState (ε : PlatformCall → Bool) (nows : Nat → Int) (db : DBState) :
    Nat → DBState
  | 0 => db
  | n + 1 => runIteration ε (loopState ε nows db n) (nows n)

/-- Running `m` further iterations starting at iteration index `i`
(front-first form of `loopState`, used to unwind `runLoop`). -/
def iterFrom (ε : PlatformCall → Bool) (nows : Nat → Int) :
    Nat → Nat → DBState → DBState
  | _, 0, db => db
  | i, m + 1, db => iterFrom ε nows (i + 1) m (runIteration ε db (nows i))

/-- The status the worker loop assigns to a processed post: `sent` on a
successful delivery, `failed` when the delivery raised. -/
def outcome (ε : PlatformCall → Bool) (row : DuePostRow) : Status :=
  if (send_post ε row).ok then Status.sent else Status.failed

/-- A sequence of worker iterations, each with its own platform
environment and `NOW()` value. -/
def runTrace (db : DBState)
    (steps : List ((PlatformCall → Bool) × Int)) : DBState :=
  steps.foldl (fun d s => runIteration s.1 d s.2) db

/-- The cumulative effect of a batch's `mark_post_sent` calls on one
post row: each batch row whose id matches stamps its outcome. -/
def markFold (ε : PlatformCall → Bool) (now : Int) (B : List DuePostRow)
    (p : ScheduledPost) : ScheduledPost :=
  B.foldl
    (fun q r => if q.id == r.post.id then markPost (outcome ε r) now q
      else q) p

/-- The task/stop-event bookkeeping of `ScheduledPostWorker`:
`self._task` (an opaque task identity or `None`) and `self._stop_event`. -/
structure WorkerCtl where
  task : Option Nat
  stop_event : Bool
deriving DecidableEq, Repr

/-- `ScheduledPostWorker.start` (scheduler.py lines 24-26): `if not
self._task:` create the task; `fresh` is the identity the new task would
get. -/
def WorkerCtl.start (w : WorkerCtl) (fresh : Nat) : WorkerCtl :=
  match w.task with
  | some _ => w
  | none => { w with task := some fresh }

/-- `ScheduledPostWorker.stop` (scheduler.py lines 28-32): set the stop
event; if a task exists, await it (join) and clear the reference. A total
function: the second call takes the `none` branch and returns normally. -/
def WorkerCtl.stop (w : WorkerCtl) : WorkerCtl :=
  let w' : WorkerCtl := { w with stop_event := true }
  match w'.task with
  | some _ => { w' with task := none }
  | none => w'

/-! ## VK client (services/vk_client.py)

Python `str` values are modelled as `List Char` (a Python string is a
sequence of code points). The model of `int(str)` covers the ASCII part
of Python's grammar: surrounding whitespace, an optional `+`/`-` sign,
then decimal digits optionally grouped by single underscores. -/

/-- Python `str.strip()` with no argument: remove leading and trailing
whitespace. -/
def pyStrip (cs : List Char) : List Char :=
  ((cs.dropWhile Char.isWhitespace).reverse.dropWhile Char.isWhitespace).reverse

/-- `s.startswith("-")` on the character-list model. -/
def startsWithChar (c : Char) : List Char → Bool
  | [] => false
  | d :: _ => d == c

/-- `s.startswith("club")` on the character-list model. -/
def startsWithClub (cs : List Char) : Bool :=
  startsWithChar 'c' cs && startsWithChar 'l' (cs.drop 1) &&
  startsWithChar 'u' (cs.drop 2) && startsWithChar 'b' (cs.drop 3)

/-- Parse the remainder of a Python integer digit part, accumulating the
value: a digit continues the run, an underscore must be followed by a
digit (no trailing or doubled underscore). -/
def digitPartAux : Nat → List Char → Option Nat
  | acc, [] => some acc
  | acc, [c] => if c.isDigit then some (acc * 10 + (c.toNat - 48)) else none
  | acc, c :: d :: cs =>
    if c.isDigit then digitPartAux (acc * 10 + (c.toNat - 48)) (d :: cs)
    else if c == '_' && d.isDigit then
      digitPartAux (acc * 10 + (d.toNat - 48)) cs
    else none

/-- Parse a Python integer digit part (must start with a digit). -/
def parseDigitPart : List Char → Option Nat
  | [] => none
  | c :: cs => if c.isDigit then digitPartAux (c.toNat - 48) cs else none

/-- Python `int(s)` on the ASCII fragment of its grammar: strip
whitespace, optional single sign, digit part; `none` models the
`ValueError` raised on any other input. -/
def pyInt (cs : List Char) : Option Int :=
  let g := pyStrip cs
  if startsWithChar '-' g then
    (parseDigitPart (g.drop 1)).map fun n => -(Int.ofNat n)
  else if startsWithChar '+' g then
    (parseDigitPart (g.drop 1)).map fun n => Int.ofNat n
  else (parseDigitPart g).map fun n => Int.ofNat n

/-- `VKClient._normalize_group_id` (vk_client.py lines 49-56): strip; a
minus-prefixed input goes through `int` unchanged; otherwise a `club`
prefix is removed and the result is `-abs(int(...))`. `none` models the
`ValueError` raised by `int`. -/
def normalizeChars (group_id : List Char) : Option Int :=
  let g := pyStrip group_id
  if startsWithChar '-' g then pyInt g
  else
    let g' := if startsWithClub g then g.drop 4 else g
    (pyInt g').map fun n => -((n.natAbs : Int))

/-- `_normalize_group_id` on Lean strings. -/
def normalize_group_id (group_id : String) : Option Int :=
  normalizeChars group_id.data

/-- The `wall.post` call issued by `post_to_group`. -/
structure WallPostCall where
  owner_id : Int
  message : String
  attachments : Option String
  from_group : Bool
deriving DecidableEq, Repr

/-- The platform calls `post_to_group` makes: the optional
`VkUpload.photo_wall` call (its `group_id` argument and the number of
photos), then the `wall.post` call. -/
structure PostToGroupTrace where
  upload : Option (Nat × Nat)
  wall : WallPostCall
deriving DecidableEq, Repr

/-- The attachment string `f"photo{photo['owner_id']}_{photo['id']}"`
built from an uploaded-photo record. -/
def attachmentStr (p : Int × Nat) : String :=
  "photo" ++ toString p.1 ++ "_" ++ toString p.2

/-- `VKClient.post_to_group` (vk_client.py lines 58-103): normalize the
group id first — a `ValueError` there (`none`) aborts before any upload
or wall call; with photos, upload them to `abs(owner_id)`; then
`wall.post(owner_id=..., message=message or "", attachments=",".join(...)
if attachments else None, from_group=True)`. `uploaded` is the VK API's
response to the upload (external data). -/
def post_to_group (group_id : String) (message : Option String)
    (photo_files : List String) (uploaded : List (Int × Nat)) :
    Option PostToGroupTrace :=
  match normalize_group_id group_id with
  | none => none
  | some owner_id =>
      let attachments : List String :=
        if photo_files.isEmpty then [] else uploaded.map attachmentStr
      some
        { upload :=
            if photo_files.isEmpty then none
            else some (owner_id.natAbs, photo_files.length)
          wall :=
            { owner_id := owner_id
              message := message.getD ""
              attachments :=
                if attachments.isEmpty then none
                else some (String.intercalate "," attachments)
              from_group := true } }

/-! Claim-side (spec-worded) predicates used to compare the claimed
domain of `_normalize_group_id` with the code's actual domain. -/

/-- A bare decimal integer in the claims' sense: a nonempty run of
decimal digits. -/
def isDigitRun (cs : List Char) : Bool :=
  !cs.isEmpty && cs.all Char.isDigit

/-- The domain claimed for `_normalize_group_id` (stated from the claim's
words, for refinement comparison): after stripping, a minus-prefixed
decimal integer, `club` followed by a decimal integer, or a bare decimal
integer. -/
def claimedNormalizeDomain (s : List Char) : Bool :=
  let g := pyStrip s
  (startsWithChar '-' g && isDigitRun (g.drop 1)) ||
  (startsWithClub g && isDigitRun (g.drop 4)) ||
  isDigitRun g

/-- Grammar of the tail of a Python integer digit part (value-free
counterpart of `digitPartAux`). -/
def isDigitPartTail : List Char → Bool
  | [] => true
  | [c] => c.isDigit
  | c :: d :: cs =>
    if c.isDigit then isDigitPartTail (d :: cs)
    else c == '_' && d.isDigit && isDigitPartTail cs

/-- Grammar of a Python integer digit part: digits optionally grouped by
single underscores, no leading, trailing or doubled underscore. -/
def isDigitPart : List Char → Bool
  | [] => false
  | c :: cs => c.isDigit && isDigitPartTail cs

/-- Grammar of the strings Python's `int` accepts (ASCII fragment):
surrounding whitespace, an optional `+`/`-` sign, a digit part. -/
def isPyIntLiteral (cs : List Char) : Bool :=
  let g := pyStrip cs
  if startsWithChar '-' g then isDigitPart (g.drop 1)
  else if startsWithChar '+' g then isDigitPart (g.drop 1)
  else isDigitPart g

/-- The inputs `_normalize_group_id` actually accepts: after stripping,
either a `-`-prefixed digit part, or — with any `club` prefix removed —
any string `int` accepts (which may itself carry inner whitespace and a
sign after the `club` prefix). -/
def acceptedNormalizeDomain (s : List Char) : Bool :=
  let g := pyStrip s
  if startsWithChar '-' g then isDigitPart (g.drop 1)
  else isPyIntLiteral (if startsWithClub g then g.drop 4 else g)

/-- Numeric value of a run of decimal digits. -/
def digitsToNat (cs : List Char) : Nat :=
  cs.foldl (fun acc c => acc * 10 + (c.toNat - 48)) 0

/-! ## Concrete instances used by counterexamples and witnesses -/

/-- A soft-deleted channel (`is_active = false`). -/
def cexChannel : Channel :=
  ⟨7, "news", "@news", "club1", false⟩

/-- A pending post of `cexChannel`, due at time `0`. -/
def cexPost : ScheduledPost :=
  ⟨3, 7, some 42, some "hello", [], 0, Status.pending, none⟩

/-- A database whose only channel is soft-deleted. -/
def cexDB : DBState :=
  ⟨[cexChannel], [cexPost]⟩

/-- A due row with no media, used to exercise `_send_post`. -/
def cexRow : DuePostRow :=
  ⟨cexPost, "@news", "club1"⟩

/-- An environment in which every platform call raises. -/
def allFail : PlatformCall → Bool := fun _ => false

/-- An environment in which every platform call succeeds. -/
def allOk : PlatformCall → Bool := fun _ => true

/-- An active channel for witness instantiations. -/
def wChannel : Channel :=
  ⟨1, "main", "@main", "club5", true⟩

/-- A pending post of `wChannel`, due at time `0`. -/
def wPost : ScheduledPost :=
  ⟨1, 1, none, some "hi", [], 0, Status.pending, none⟩

/-- A small healthy database for witness instantiations. -/
def wDB : DBState :=
  ⟨[wChannel], [wPost]⟩

/-- Three media items, used to exercise album delivery. -/
def wMedia : List MediaItem :=
  [⟨"f1", none⟩, ⟨"f2", none⟩, ⟨"f3", none⟩]

/-- The due row `due_posts` produces for `wPost` in `wDB`. -/
def wRow : DuePostRow :=
  ⟨wPost, "@main", "club5"⟩

/-- An already-sent post of `wChannel`. -/
def wPostSent : ScheduledPost :=
  ⟨2, 1, none, some "old", [], -5, Status.sent, some (-1)⟩

/-- A database holding one pending and one already-sent post. -/
def wDB2 : DBState :=
  ⟨[wChannel], [wPost, wPostSent]⟩

/-! ## Character and parsing lemmas -/

theorem not_ws_of_digit {c : Char} (h : c.isDigit = true) :
    c.isWhitespace = false := by
  simp only [Char.isWhitespace, Bool.or_eq_false_iff, decide_eq_false_iff_not]
  refine ⟨⟨⟨?_, ?_⟩, ?_⟩, ?_⟩ <;> rintro rfl <;> exact absurd h (by decide)

theorem digit_beq_false {c t : Char} (h : c.isDigit = true)
    (ht : t.isDigit = false) : (c == t) = false := by
  rw [beq_eq_false_iff_ne]
  rintro rfl
  rw [h] at ht
  exact absurd ht (by simp)

theorem dropWhile_eq_self_of_all_neg {α : Type} {p : α → Bool} :
    ∀ {l : List α}, (∀ a ∈ l, p a = false) → l.dropWhile p = l
  | [], _ => rfl
  | a :: l, h => by
    rw [List.dropWhile_cons, h a (List.mem_cons_self a l)]
    simp

theorem dropWhile_head_neg {α : Type} (p : α → Bool) :
    ∀ (l : List α) (a : α) (t : List α), l.dropWhile p = a :: t → p a = false
  | [], a, t, h => by simp [List.dropWhile] at h
  | b :: l, a, t, h => by
    by_cases hb : p b = true
    · rw [List.dropWhile_cons_of_pos hb] at h
      exact dropWhile_head_neg p l a t h
    · rw [List.dropWhile_cons_of_neg hb] at h
      cases h
      simpa using hb

theorem pyStrip_eq_self {cs : List Char}
    (h : ∀ c ∈ cs, c.isWhitespace = false) : pyStrip cs = cs := by
  unfold pyStrip
  rw [dropWhile_eq_self_of_all_neg h,
    dropWhile_eq_self_of_all_neg (fun c hc => h c (List.mem_reverse.mp hc)),
    List.reverse_reverse]

theorem pyStrip_eq_rdrop (cs : List Char) :
    pyStrip cs =
      (cs.dropWhile Char.isWhitespace).rdropWhile Char.isWhitespace := by
  simp [pyStrip, List.rdropWhile]

theorem pyStrip_idem (cs : List Char) : pyStrip (pyStrip cs) = pyStrip cs := by
  rw [pyStrip_eq_rdrop cs, pyStrip_eq_rdrop]
  have hdrop :
      ((cs.dropWhile Char.isWhitespace).rdropWhile Char.isWhitespace).dropWhile
          Char.isWhitespace =
        (cs.dropWhile Char.isWhitespace).rdropWhile Char.isWhitespace := by
    cases hrd :
        (cs.dropWhile Char.isWhitespace).rdropWhile Char.isWhitespace with
    | nil => rfl
    | cons a t =>
      have hpre :=
        List.rdropWhile_prefix Char.isWhitespace
          (cs.dropWhile Char.isWhitespace)
      rw [hrd] at hpre
      obtain ⟨rest, hrest⟩ := hpre
      have hd : cs.dropWhile Char.isWhitespace = a :: (t ++ rest) := by
        rw [← hrest]; simp
      have ha : Char.isWhitespace a = false :=
        dropWhile_head_neg Char.isWhitespace cs a (t ++ rest) hd
      rw [List.dropWhile_cons_of_neg (by simp [ha])]
  rw [hdrop, List.rdropWhile_idempotent]

theorem digitPartAux_isSome : ∀ (cs : List Char) (acc : Nat),
    (digitPartAux acc cs).isSome = isDigitPartTail cs
  | [], _ => rfl
  | [c], acc => by
    by_cases h : c.isDigit = true <;> simp [digitPartAux, isDigitPartTail, h]
  | c :: d :: cs, acc => by
    by_cases h : c.isDigit = true
    · simp [digitPartAux, isDigitPartTail, h, digitPartAux_isSome (d :: cs)]
    · by_cases h2 : (c == '_' && d.isDigit) = true
      · simp [digitPartAux, isDigitPartTail, h, h2,
          digitPartAux_isSome cs]
      · simp only [Bool.and_eq_true] at h2
        by_cases hu : (c == '_') = true
        · have hd : d.isDigit = false := by
            rcases Bool.eq_false_or_eq_true d.isDigit with ht | hf
            · exact absurd ⟨hu, ht⟩ h2
            · exact hf
          simp [digitPartAux, isDigitPartTail, h, hu, hd]
        · simp [digitPartAux, isDigitPartTail, h, hu]

theorem parseDigitPart_isSome (cs : List Char) :
    (parseDigitPart cs).isSome = isDigitPart cs := by
  cases cs with
  | nil => rfl
  | cons c rest =>
    by_cases h : c.isDigit = true <;>
      simp [parseDigitPart, isDigitPart, h, digitPartAux_isSome]

theorem digitPartAux_digits : ∀ (cs : List Char) (acc : Nat),
    (∀ c ∈ cs, c.isDigit = true) →
    digitPartAux acc cs =
      some (cs.foldl (fun a c => a * 10 + (c.toNat - 48)) acc)
  | [], _, _ => rfl
  | [c], acc, h => by simp [digitPartAux, h c (by simp)]
  | c :: d :: cs, acc, h => by
    have hc : c.isDigit = true := h c (by simp)
    rw [digitPartAux, if_pos hc,
      digitPartAux_digits (d :: cs) _ (fun x hx => h x (by simp [hx]))]
    rfl

theorem parseDigitPart_digits {ds : List Char} (hne : ds ≠ [])
    (hdig : ∀ c ∈ ds, c.isDigit = true) :
    parseDigitPart ds = some (digitsToNat ds) := by
  obtain ⟨d, rest, rfl⟩ := List.exists_cons_of_ne_nil hne
  have hd : d.isDigit = true := hdig d (by simp)
  rw [parseDigitPart, if_pos hd,
    digitPartAux_digits rest _ (fun x hx => hdig x (by simp [hx]))]
  simp [digitsToNat]

theorem opt_isSome_map {α β : Type} (o : Option α) (f : α → β) :
    (o.map f).isSome = o.isSome := by cases o <;> rfl

theorem pyInt_isSome (cs : List Char) :
    (pyInt cs).isSome = isPyIntLiteral cs := by
  simp only [pyInt, isPyIntLiteral]
  by_cases h1 : startsWithChar '-' (pyStrip cs) = true
  · rw [if_pos h1, if_pos h1, opt_isSome_map, parseDigitPart_isSome]
  · rw [if_neg h1, if_neg h1]
    by_cases h2 : startsWithChar '+' (pyStrip cs) = true
    · rw [if_pos h2, if_pos h2, opt_isSome_map, parseDigitPart_isSome]
    · rw [if_neg h2, if_neg h2, opt_isSome_map, parseDigitPart_isSome]

theorem pyInt_digits {ds : List Char} (hne : ds ≠ [])
    (hdig : ∀ c ∈ ds, c.isDigit = true) :
    pyInt ds = some (digitsToNat ds : Int) := by
  have hnw : ∀ c ∈ ds, c.isWhitespace = false :=
    fun c hc => not_ws_of_digit (hdig c hc)
  obtain ⟨d, rest, rfl⟩ := List.exists_cons_of_ne_nil hne
  have hd : d.isDigit = true := hdig d (by simp)
  have h1 : (d == '-') = false := digit_beq_false hd (by decide)
  have h2 : (d == '+') = false := digit_beq_false hd (by decide)
  simp [pyInt, pyStrip_eq_self hnw, startsWithChar, h1, h2,
    parseDigitPart_digits hne hdig]

/-! ## Claim C5 -/

/-- C5: community id normalization maps every bare digit string to the
negation of its value, every minus-prefixed digit string to the same
negative integer, and every `club`-prefixed digit string to the negation
of its suffix's value; and the `owner_id` handed to the `wall.post` call
is always the normalization's result. -/
theorem normalize_canonical_forms (ds : List Char) (hne : ds ≠ [])
    (hdig : ∀ c ∈ ds, c.isDigit = true) :
    normalizeChars ds = some (-(digitsToNat ds : Int)) ∧
    normalizeChars ('-' :: ds) = some (-(digitsToNat ds : Int)) ∧
    normalizeChars ('c' :: 'l' :: 'u' :: 'b' :: ds) =
      some (-(digitsToNat ds : Int)) ∧
    ∀ gid msg files uploaded trace,
      post_to_group gid msg files uploaded = some trace →
      some trace.wall.owner_id = normalize_group_id gid := by
  have hnw : ∀ c ∈ ds, c.isWhitespace = false :=
    fun c hc => not_ws_of_digit (hdig c hc)
  obtain ⟨d, rest, rfl⟩ := List.exists_cons_of_ne_nil hne
  have hd : d.isDigit = true := hdig d (by simp)
  have h1 : (d == '-') = false := digit_beq_false hd (by decide)
  have h2 : (d == 'c') = false := digit_beq_false hd (by decide)
  refine ⟨?_, ?_, ?_, ?_⟩
  · simp [normalizeChars, pyStrip_eq_self hnw, startsWithChar, startsWithClub,
      h1, h2, pyInt_digits hne hdig]
  · have hnw2 : ∀ c ∈ ('-' :: d :: rest), c.isWhitespace = false := by
      intro c hc
      rcases List.mem_cons.mp hc with rfl | hc
      · decide
      · exact hnw c hc
    simp [normalizeChars, pyStrip_eq_self hnw2, startsWithChar, pyInt,
      parseDigitPart_digits hne hdig]
  · have hnw3 :
        ∀ c ∈ ('c' :: 'l' :: 'u' :: 'b' :: d :: rest),
          c.isWhitespace = false := by
      intro c hc
      rcases List.mem_cons.mp hc with rfl | hc
      · decide
      rcases List.mem_cons.mp hc with rfl | hc
      · decide
      rcases List.mem_cons.mp hc with rfl | hc
      · decide
      rcases List.mem_cons.mp hc with rfl | hc
      · decide
      exact hnw c hc
    simp [normalizeChars, pyStrip_eq_self hnw3, startsWithChar, startsWithClub,
      pyInt_digits hne hdig]
  · intro gid msg files uploaded trace h
    cases heq : normalize_group_id gid with
    | none =>
      have hno : post_to_group gid msg files uploaded = none := by
        simp [post_to_group, heq]
      rw [hno] at h
      exact Option.noConfusion h
    | some o =>
      simp only [post_to_group, heq, Option.some.injEq] at h
      subst h
      rfl

/-- Witness for C5 at the digit string `123`. -/
theorem normalize_canonical_forms_app :
    normalizeChars ['1', '2', '3'] = some (-(digitsToNat ['1', '2', '3'] : Int)) :=
  (normalize_canonical_forms ['1', '2', '3'] (by decide) (by decide)).1

/-! ## Claim C10 -/

/-- C10 counterexample: the input `"+123"` is outside the domain the
claim asserts (after stripping it is neither a minus-prefixed decimal
integer, nor `club` followed by one, nor a bare decimal integer), yet
`_normalize_group_id` accepts it and returns `-123` instead of raising
`ValueError`. -/
theorem normalize_plus_accepted_cex :
    claimedNormalizeDomain ['+', '1', '2', '3'] = false ∧
    normalizeChars ['+', '1', '2', '3'] = some (-123) ∧
    normalize_group_id "+123" = some (-123) :=
  ⟨by decide, by decide, by decide⟩

/-- C10 amended: `_normalize_group_id` is total exactly on strings that,
after stripping surrounding whitespace, are `-` followed by a digit part,
or — with any `club` prefix removed — any literal Python's `int` accepts
(optional inner whitespace, an optional `+`/`-` sign, then a digit part,
where a digit part is a nonempty digit run optionally grouped by single
underscores); on any other input it raises `ValueError`, and then
`post_to_group` fails before any upload or wall-post platform call. -/
theorem normalize_group_id_domain (s : List Char) :
    ((normalizeChars s).isSome = acceptedNormalizeDomain s) ∧
    (∀ gid msg files uploaded, normalize_group_id gid = none →
      post_to_group gid msg files uploaded = none) := by
  constructor
  · simp only [normalizeChars, acceptedNormalizeDomain]
    by_cases h : startsWithChar '-' (pyStrip s) = true
    · rw [if_pos h, if_pos h, pyInt_isSome]
      simp only [isPyIntLiteral, pyStrip_idem]
      rw [if_pos h]
    · rw [if_neg h, if_neg h, opt_isSome_map, pyInt_isSome]
  · intro gid msg files uploaded hnone
    simp [post_to_group, hnone]

/-- Witness for C10's amended theorem: the bare digit string `"7"` is in
the accepted domain, and the rejected input `"abc"` makes
`post_to_group` fail before any platform call. -/
theorem normalize_group_id_domain_app :
    ((normalizeChars ['7']).isSome = acceptedNormalizeDomain ['7']) ∧
    post_to_group "abc" none [] [] = none :=
  ⟨(normalize_group_id_domain ['7']).1,
    (normalize_group_id_domain ['7']).2 "abc" none [] [] (by decide)⟩

/-! ## Claim C6 -/

theorem enumFrom_caption_none {text : Option String} :
    ∀ (l : List MediaItem) (k : Nat), k ≠ 0 →
      (l.enumFrom k).map
          (fun it => if it.1 == 0 then text else (none : Option String)) =
        List.replicate l.length none
  | [], _, _ => rfl
  | m :: l, k, hk => by
    rw [List.enumFrom_cons]
    simp only [List.map_cons]
    rw [show (k == 0) = false from beq_eq_false_iff_ne.mpr hk]
    rw [if_neg (by simp), enumFrom_caption_none l (k + 1) (Nat.succ_ne_zero k),
      List.length_cons, List.replicate_succ]

theorem enum_caption (text : Option String) (a : MediaItem)
    (l : List MediaItem) :
    ((a :: l).enum).map
        (fun it => if it.1 == 0 then text else (none : Option String)) =
      text :: List.replicate l.length none := by
  show ((a :: l).enumFrom 0).map _ = _
  rw [List.enumFrom_cons]
  simp only [List.map_cons]
  rw [show ((0 : Nat) == 0) = true from rfl, if_pos rfl,
    enumFrom_caption_none l 1 (by decide)]

/-- C6: chat delivery sends a plain text message when there is no media,
a single photo captioned with the post text for exactly one item, and for
two or more items an album whose first item alone carries the text as its
caption, every later item carrying none. -/
theorem chat_delivery_caption (channel : String) (text : Option String)
    (media : List MediaItem) :
    (send_to_telegram channel text [] =
      .tgSendMessage channel (text.getD "")) ∧
    (∀ item, send_to_telegram channel text [item] =
      .tgSendPhoto channel item.file_id (text.getD "")) ∧
    (2 ≤ media.length →
      ∃ g, send_to_telegram channel text media = .tgSendMediaGroup channel g ∧
        g.map Prod.fst = media.map (·.file_id) ∧
        g.map Prod.snd = text :: List.replicate (media.length - 1) none) := by
  refine ⟨rfl, fun item => rfl, ?_⟩
  intro h2
  match media, h2 with
  | a :: b :: rest, _ =>
    refine ⟨_, rfl, ?_, ?_⟩
    · rw [List.map_map]
      show ((a :: b :: rest).enum).map (fun it => it.2.file_id) = _
      rw [show (fun it : Nat × MediaItem => it.2.file_id) =
          ((fun m : MediaItem => m.file_id) ∘ Prod.snd) from rfl,
        ← List.map_map, List.enum_map_snd]
    · rw [List.map_map]
      show ((a :: b :: rest).enum).map
          (fun it => if it.1 == 0 then text else (none : Option String)) = _
      rw [enum_caption]
      rfl

/-- Witness for C6: three media items with caption `"C"` — only the first
album entry carries the caption. -/
theorem chat_delivery_caption_app :
    2 ≤ wMedia.length ∧
    ∃ g, send_to_telegram "@c" (some "C") wMedia = .tgSendMediaGroup "@c" g ∧
      g.map Prod.fst = wMedia.map (·.file_id) ∧
      g.map Prod.snd = some "C" :: List.replicate (wMedia.length - 1) none :=
  ⟨by decide, (chat_delivery_caption "@c" (some "C") wMedia).2.2 (by decide)⟩

/-! ## Claim C2 -/

/-- C2 counterexample: with every platform call raising (`allFail`), the
chat (Telegram) call of `cexRow` raises and the wall (VK) call is then
never attempted — `_send_post` propagates the chat exception before
reaching `_send_to_vk`, so a chat failure does suppress the wall attempt. -/
theorem send_post_chat_failure_skips_wall_cex :
    allFail (send_to_telegram cexRow.telegram_channel cexRow.post.text
      cexRow.post.media) = false ∧
    (send_post allFail cexRow).attempted =
      [send_to_telegram cexRow.telegram_channel cexRow.post.text
        cexRow.post.media] ∧
    send_to_vk cexRow.vk_group_id cexRow.post.text cexRow.post.media ∉
      (send_post allFail cexRow).attempted := by
  decide

/-- C2 amended: the two deliveries are sequential with the chat call
first: a wall-call failure still has the chat call attempted (the chat
call is attempted on every delivery), but a chat-call failure propagates
at once and the wall call is never attempted. -/
theorem send_post_sequential_attempts (ε : PlatformCall → Bool)
    (row : DuePostRow) :
    (ε (send_to_telegram row.telegram_channel row.post.text row.post.media) =
        true →
      (send_post ε row).attempted =
        [send_to_telegram row.telegram_channel row.post.text row.post.media,
          send_to_vk row.vk_group_id row.post.text row.post.media]) ∧
    (ε (send_to_telegram row.telegram_channel row.post.text row.post.media) =
        false →
      (send_post ε row).attempted =
        [send_to_telegram row.telegram_channel row.post.text
          row.post.media]) ∧
    send_to_telegram row.telegram_channel row.post.text row.post.media ∈
      (send_post ε row).attempted := by
  refine ⟨fun h => by simp [send_post, h], fun h => by simp [send_post, h], ?_⟩
  by_cases h :
      ε (send_to_telegram row.telegram_channel row.post.text row.post.media) =
        true <;>
    simp [send_post, h]

/-- Witness for C2's amended theorem: with every call succeeding, both
calls are attempted, chat first. -/
theorem send_post_sequential_attempts_app :
    allOk (send_to_telegram cexRow.telegram_channel cexRow.post.text
      cexRow.post.media) = true ∧
    (send_post allOk cexRow).attempted =
      [send_to_telegram cexRow.telegram_channel cexRow.post.text
        cexRow.post.media,
        send_to_vk cexRow.vk_group_id cexRow.post.text cexRow.post.media] :=
  ⟨rfl, (send_post_sequential_attempts allOk cexRow).1 rfl⟩

/-! ## Claim C7 -/

/-- C7 counterexample: `cexChannel` is soft-deleted (`is_active = false`)
yet its pending, due post is returned by `due_posts` — the SQL join has
no `is_active` condition. -/
theorem due_posts_inactive_returned_cex :
    cexChannel.is_active = false ∧
    cexPost.status = Status.pending ∧
    cexPost.scheduled_for ≤ 5 ∧
    due_posts cexDB 5 =
      [⟨cexPost, cexChannel.telegram_channel, cexChannel.vk_group_id⟩] := by
  decide

/-- C7 amended: `due_posts` does not consult `is_active` at all — its
result is unchanged under any rewriting of the channels' `is_active`
flags, so a soft-deleted channel's pending due posts are selected exactly
like an active channel's (existing posts are of course retained, the
query being a pure read). -/
theorem due_posts_ignores_is_active (db : DBState) (b : Channel → Bool) :
    due_posts
        ⟨db.channels.map (fun c => { c with is_active := b c }), db.posts⟩ =
      due_posts db := by
  have hfil : ∀ (cs : List Channel) (p : ScheduledPost),
      ((cs.map (fun c => { c with is_active := b c })).filter
          (fun c => c.id == p.channel_id)).map
        (fun c => (⟨p, c.telegram_channel, c.vk_group_id⟩ : DuePostRow)) =
      (cs.filter (fun c => c.id == p.channel_id)).map
        (fun c => ⟨p, c.telegram_channel, c.vk_group_id⟩) := by
    intro cs p
    induction cs with
    | nil => rfl
    | cons c rest ih =>
      by_cases hc : (c.id == p.channel_id) = true <;>
        simp [List.filter_cons, hc, ih]
  have hjoin :
      joinRows
          ⟨db.channels.map (fun c => { c with is_active := b c }),
            db.posts⟩ =
        joinRows db := by
    unfold joinRows
    exact congrArg db.posts.flatMap (funext fun p => hfil db.channels p)
  unfold due_posts
  rw [hjoin]

/-! ## Claim C9 -/

/-- C9: `start` while a task reference exists is a no-op (no second task
is created); with no task it installs the fresh task; `stop` resets the
reference to `none`, after which `start` installs a fresh task again. -/
theorem start_single_task :
    (∀ (w : WorkerCtl) (fresh t : Nat), w.task = some t →
      WorkerCtl.start w fresh = w) ∧
    (∀ (w : WorkerCtl) (fresh : Nat), w.task = none →
      (WorkerCtl.start w fresh).task = some fresh) ∧
    (∀ w : WorkerCtl, (WorkerCtl.stop w).task = none) ∧
    (∀ (w : WorkerCtl) (fresh : Nat),
      (WorkerCtl.start (WorkerCtl.stop w) fresh).task = some fresh) := by
  refine ⟨?_, ?_, ?_, ?_⟩
  · intro w fresh t h
    simp [WorkerCtl.start, h]
  · intro w fresh h
    simp [WorkerCtl.start, h]
  · intro w
    cases hw : w.task <;> simp [WorkerCtl.stop, hw]
  · intro w fresh
    cases hw : w.task <;> simp [WorkerCtl.start, WorkerCtl.stop, hw]

/-- Witness for C9: a worker with a live task ignores a second `start`. -/
theorem start_single_task_app :
    (⟨some 5, false⟩ : WorkerCtl).task = some 5 ∧
    WorkerCtl.start ⟨some 5, false⟩ 9 = ⟨some 5, false⟩ :=
  ⟨rfl, start_single_task.1 ⟨some 5, false⟩ 9 5 rfl⟩

/-! ## Worker-iteration lemmas -/

theorem markPost_id (st : Status) (t : Int) (p : ScheduledPost) :
    (markPost st t p).id = p.id := rfl

theorem mark_fun_id (i : Nat) (st : Status) (t : Int) (p : ScheduledPost) :
    (if p.id == i then markPost st t p else p).id = p.id := by
  by_cases h : (p.id == i) = true <;> simp [h, markPost]

theorem mark_post_sent_channels (db : DBState) (i : Nat) (st : Status)
    (t : Int) : (mark_post_sent db i st t).channels = db.channels := rfl

theorem mark_post_sent_ids (db : DBState) (i : Nat) (st : Status) (t : Int) :
    (mark_post_sent db i st t).posts.map (fun p => p.id) =
      db.posts.map (fun p => p.id) := by
  show (db.posts.map _).map _ = _
  rw [List.map_map]
  exact List.map_congr_left fun p _ => mark_fun_id i st t p

theorem getPost_mark (db : DBState) (i : Nat) (st : Status) (t : Int)
    (j : Nat) :
    getPost (mark_post_sent db i st t) j =
      (getPost db j).map fun p =>
        if p.id == i then markPost st t p else p := by
  show (db.posts.map _).find? _ = _
  rw [List.find?_map]
  have hpred : ((fun q : ScheduledPost => q.id == j) ∘ fun p =>
      if p.id == i then markPost st t p else p) =
        fun p : ScheduledPost => p.id == j := by
    funext p
    simp only [Function.comp]
    rw [mark_fun_id]
  rw [hpred]
  rfl

theorem getPost_some_id {db : DBState} {j : Nat} {p : ScheduledPost}
    (h : getPost db j = some p) : (p.id == j) = true := by
  unfold getPost at h
  have hp := List.find?_some h
  exact hp

theorem getPost_some_mem {db : DBState} {j : Nat} {p : ScheduledPost}
    (h : getPost db j = some p) : p ∈ db.posts := by
  unfold getPost at h
  exact List.mem_of_find?_eq_some h

theorem processPost_eq (ε : PlatformCall → Bool) (now : Int) (db : DBState)
    (row : DuePostRow) :
    processPost ε now db row =
      mark_post_sent db row.post.id (outcome ε row) now := by
  unfold processPost outcome
  by_cases h : (send_post ε row).ok = true <;> simp [h]

theorem getPost_foldl_process (ε : PlatformCall → Bool) (now : Int) :
    ∀ (B : List DuePostRow) (db : DBState),
      (B.map fun r => r.post.id).Nodup → ∀ j : Nat,
      getPost (B.foldl (processPost ε now) db) j =
        (match B.find? (fun r => r.post.id == j) with
          | some r => (getPost db j).map (markPost (outcome ε r) now)
          | none => getPost db j)
  | [], db, _, j => rfl
  | r :: B, db, hnd, j => by
    simp only [List.map_cons, List.nodup_cons] at hnd
    obtain ⟨hmem, hnd'⟩ := hnd
    rw [List.foldl_cons, processPost_eq]
    by_cases hj : (r.post.id == j) = true
    · have hfind0 :
          List.find? (fun r' : DuePostRow => r'.post.id == j) (r :: B) =
            some r := by
        simp [List.find?_cons, hj]
      rw [hfind0]
      show getPost _ j = (getPost db j).map (markPost (outcome ε r) now)
      rw [getPost_foldl_process ε now B _ hnd' j]
      have hfind : B.find? (fun r' => r'.post.id == j) = none := by
        rw [List.find?_eq_none]
        intro x hx hpx
        apply hmem
        have : x.post.id = r.post.id := by
          rw [eq_of_beq hpx, eq_of_beq hj]
        rw [← this]
        exact List.mem_map.mpr ⟨x, hx, rfl⟩
      rw [hfind]
      show getPost (mark_post_sent db r.post.id (outcome ε r) now) j = _
      rw [getPost_mark]
      cases hg : getPost db j with
      | none => rfl
      | some p =>
        have hpj : (p.id == j) = true := getPost_some_id hg
        have hpid : (p.id == r.post.id) = true := by
          rw [beq_iff_eq] at hpj hj ⊢
          rw [hpj, hj]
        show some (if p.id == r.post.id then markPost (outcome ε r) now p
          else p) = some (markPost (outcome ε r) now p)
        rw [if_pos hpid]
    · have hfind0 :
          List.find? (fun r' : DuePostRow => r'.post.id == j) (r :: B) =
            List.find? (fun r' : DuePostRow => r'.post.id == j) B := by
        simp [List.find?_cons, hj]
      rw [hfind0]
      rw [getPost_foldl_process ε now B _ hnd' j]
      have hmk : getPost (mark_post_sent db r.post.id (outcome ε r) now) j =
          getPost db j := by
        rw [getPost_mark]
        cases hg : getPost db j with
        | none => rfl
        | some p =>
          have hpj : (p.id == j) = true := getPost_some_id hg
          have hpid : (p.id == r.post.id) = false := by
            rw [beq_eq_false_iff_ne]
            intro he
            apply hj
            rw [beq_iff_eq, ← he]
            exact eq_of_beq hpj
          show some (if p.id == r.post.id then markPost (outcome ε r) now p
            else p) = some p
          rw [if_neg (by simp [hpid])]
      cases hf : B.find? (fun r' => r'.post.id == j) with
      | some r' =>
        show (getPost _ j).map (markPost (outcome ε r') now) = _
        rw [hmk]
      | none =>
        show getPost _ j = getPost db j
        rw [hmk]

/-! ## Batch uniqueness lemmas (primary keys) -/

theorem filter_channel_len_le_one (cs : List Channel)
    (hC : (cs.map fun c => c.id).Nodup) (x : Nat) :
    (cs.filter fun c => c.id == x).length ≤ 1 := by
  induction cs with
  | nil => simp
  | cons c rest ih =>
    simp only [List.map_cons, List.nodup_cons] at hC
    obtain ⟨hmem, hnd⟩ := hC
    by_cases hc : (c.id == x) = true
    · have hrest : (rest.filter fun c => c.id == x) = [] := by
        rw [List.filter_eq_nil_iff]
        intro c' hc' hcx
        apply hmem
        have hce : c'.id = c.id := by rw [eq_of_beq hcx, eq_of_beq hc]
        rw [← hce]
        exact List.mem_map.mpr ⟨c', hc', rfl⟩
      simp [List.filter_cons, hc, hrest]
    · have hstep : ((c :: rest).filter fun c => c.id == x) =
          rest.filter fun c => c.id == x := by
        simp [List.filter_cons, hc]
      rw [hstep]
      exact ih hnd

theorem mem_joinRows {db : DBState} {r : DuePostRow} (h : r ∈ joinRows db) :
    r.post ∈ db.posts ∧ ∃ c ∈ db.channels, c.id = r.post.channel_id ∧
      r.telegram_channel = c.telegram_channel ∧
      r.vk_group_id = c.vk_group_id := by
  unfold joinRows at h
  rw [List.mem_flatMap] at h
  obtain ⟨p, hp, hr⟩ := h
  rw [List.mem_map] at hr
  obtain ⟨c, hc, hrc⟩ := hr
  rw [List.mem_filter] at hc
  obtain ⟨hcm, hcid⟩ := hc
  subst hrc
  exact ⟨hp, c, hcm, eq_of_beq hcid, rfl, rfl⟩

theorem joinRows_ids_nodup :
    ∀ (ps : List ScheduledPost) (cs : List Channel),
      (ps.map fun p => p.id).Nodup → (cs.map fun c => c.id).Nodup →
      ((joinRows ⟨cs, ps⟩).map fun r => r.post.id).Nodup
  | [], _, _, _ => by simp [joinRows]
  | p :: ps, cs, hP, hC => by
    simp only [List.map_cons, List.nodup_cons] at hP
    obtain ⟨hpmem, hPnd⟩ := hP
    have hrec := joinRows_ids_nodup ps cs hPnd hC
    show ((((cs.filter fun c => c.id == p.channel_id).map fun c =>
        (⟨p, c.telegram_channel, c.vk_group_id⟩ : DuePostRow)) ++
          joinRows ⟨cs, ps⟩).map fun r => r.post.id).Nodup
    rw [List.map_append, List.nodup_append]
    refine ⟨?_, hrec, ?_⟩
    · rw [List.map_map]
      have hconst : ((fun r : DuePostRow => r.post.id) ∘ fun c : Channel =>
          (⟨p, c.telegram_channel, c.vk_group_id⟩ : DuePostRow)) =
            fun _ : Channel => p.id := rfl
      rw [hconst]
      have hlen := filter_channel_len_le_one cs hC p.channel_id
      cases hfl : cs.filter (fun c => c.id == p.channel_id) with
      | nil => simp
      | cons a t =>
        rw [hfl] at hlen
        cases t with
        | nil => simp
        | cons b t' => simp at hlen
    · intro x hx1 hx2
      rw [List.map_map] at hx1
      have hconst : ((fun r : DuePostRow => r.post.id) ∘ fun c : Channel =>
          (⟨p, c.telegram_channel, c.vk_group_id⟩ : DuePostRow)) =
            fun _ : Channel => p.id := rfl
      rw [hconst] at hx1
      obtain ⟨c, _, hcx⟩ := List.mem_map.mp hx1
      obtain ⟨r, hr, hrx⟩ := List.mem_map.mp hx2
      apply hpmem
      have hpost : r.post ∈ ps := (mem_joinRows hr).1
      rw [hcx, ← hrx]
      exact List.mem_map.mpr ⟨r.post, hpost, rfl⟩

theorem db_eta (db : DBState) : (⟨db.channels, db.posts⟩ : DBState) = db := rfl

theorem mem_due_posts {db : DBState} {now : Int} {r : DuePostRow}
    (h : r ∈ due_posts db now) :
    r ∈ (joinRows db).filter (dueFilter now) := by
  unfold due_posts at h
  exact (List.mem_insertionSort dueLE).mp (List.mem_of_mem_take h)

theorem due_posts_ids_nodup (db : DBState) (now : Int)
    (hP : (db.posts.map fun p => p.id).Nodup)
    (hC : (db.channels.map fun c => c.id).Nodup) :
    ((due_posts db now).map fun r => r.post.id).Nodup := by
  have h1 : ((joinRows db).map fun r => r.post.id).Nodup := by
    rw [← db_eta db]
    exact joinRows_ids_nodup db.posts db.channels hP hC
  have h2 : (((joinRows db).filter (dueFilter now)).map
      fun r => r.post.id).Nodup :=
    h1.sublist ((List.filter_sublist _).map _)
  have h3 : ((((joinRows db).filter (dueFilter now)).insertionSort
      dueLE).map fun r => r.post.id).Nodup :=
    ((List.perm_insertionSort dueLE _).map _).symm.nodup h2
  exact h3.sublist ((List.take_sublist _ _).map _)

theorem find?_key_of_mem {α : Type} (key : α → Nat) :
    ∀ (l : List α), (l.map key).Nodup → ∀ a ∈ l,
      l.find? (fun x => key x == key a) = some a
  | [], _, a, ha => absurd ha (List.not_mem_nil a)
  | x :: l, hnd, a, ha => by
    simp only [List.map_cons, List.nodup_cons] at hnd
    obtain ⟨hmem, hnd'⟩ := hnd
    rcases List.mem_cons.mp ha with rfl | ha'
    · simp [List.find?_cons]
    · have hx : (key x == key a) = false := by
        rw [beq_eq_false_iff_ne]
        intro he
        apply hmem
        rw [he]
        exact List.mem_map.mpr ⟨a, ha', rfl⟩
      have hstep : List.find? (fun y => key y == key a) (x :: l) =
          List.find? (fun y => key y == key a) l := by
        simp [List.find?_cons, hx]
      rw [hstep]
      exact find?_key_of_mem key l hnd' a ha'

/-! ## Iteration frame lemmas -/

theorem foldl_process_channels (ε : PlatformCall → Bool) (now : Int) :
    ∀ (B : List DuePostRow) (db : DBState),
      (B.foldl (processPost ε now) db).channels = db.channels
  | [], _ => rfl
  | r :: B, db => by
    rw [List.foldl_cons, processPost_eq,
      foldl_process_channels ε now B, mark_post_sent_channels]

theorem runIteration_channels (ε : PlatformCall → Bool) (db : DBState)
    (now : Int) : (runIteration ε db now).channels = db.channels :=
  foldl_process_channels ε now _ db

theorem foldl_process_ids (ε : PlatformCall → Bool) (now : Int) :
    ∀ (B : List DuePostRow) (db : DBState),
      ((B.foldl (processPost ε now) db).posts.map fun p => p.id) =
        db.posts.map fun p => p.id
  | [], _ => rfl
  | r :: B, db => by
    rw [List.foldl_cons, processPost_eq,
      foldl_process_ids ε now B, mark_post_sent_ids]

theorem runIteration_ids (ε : PlatformCall → Bool) (db : DBState)
    (now : Int) :
    ((runIteration ε db now).posts.map fun p => p.id) =
      db.posts.map fun p => p.id :=
  foldl_process_ids ε now _ db

/-! ## Claim C1 -/

theorem batch_row_marked (ε : PlatformCall → Bool) (db : DBState)
    (now : Int) (hP : (db.posts.map fun p => p.id).Nodup)
    (hC : (db.channels.map fun c => c.id).Nodup) (row : DuePostRow)
    (hrow : row ∈ due_posts db now) :
    getPost (runIteration ε db now) row.post.id =
      some (markPost (outcome ε row) now row.post) := by
  have hB : ((due_posts db now).map fun r => r.post.id).Nodup :=
    due_posts_ids_nodup db now hP hC
  have hchar :=
    getPost_foldl_process ε now (due_posts db now) db hB row.post.id
  have hfind : (due_posts db now).find?
      (fun r => r.post.id == row.post.id) = some row :=
    find?_key_of_mem (fun r => r.post.id) (due_posts db now) hB row hrow
  unfold runIteration
  rw [hchar, hfind]
  show (getPost db row.post.id).map (markPost (outcome ε row) now) = _
  have hjmem : row ∈ joinRows db :=
    (List.mem_filter.mp (mem_due_posts hrow)).1
  have hget : getPost db row.post.id = some row.post := by
    unfold getPost
    exact find?_key_of_mem (fun p => p.id) db.posts hP row.post
      (mem_joinRows hjmem).1
  rw [hget]
  rfl

/-- C1: in one worker iteration the fetched batch is processed
sequentially and in full: every batch post ends marked `sent` when its
delivery succeeded and `failed` when its delivery raised (its outcome
depending only on its own delivery, so one post's failure never blocks
the rest), every other post is untouched, and the iteration is a total
function into a database state for every environment `ε` — the per-post
`try/except` converts each exception into the `failed` mark, and no
exception escapes the loop. -/
theorem worker_batch_outcomes (ε : PlatformCall → Bool) (db : DBState)
    (now : Int) (hP : (db.posts.map fun p => p.id).Nodup)
    (hC : (db.channels.map fun c => c.id).Nodup) :
    (∀ row ∈ due_posts db now,
      getPost (runIteration ε db now) row.post.id =
        some { row.post with
          status := if (send_post ε row).ok then Status.sent
            else Status.failed,
          sent_at := some now }) ∧
    (∀ j : Nat, j ∉ (due_posts db now).map (fun r => r.post.id) →
      getPost (runIteration ε db now) j = getPost db j) := by
  have hB : ((due_posts db now).map fun r => r.post.id).Nodup :=
    due_posts_ids_nodup db now hP hC
  constructor
  · intro row hrow
    rw [batch_row_marked ε db now hP hC row hrow]
    unfold outcome markPost
    by_cases h : (send_post ε row).ok = true <;> simp [h]
  · intro j hj
    have hchar := getPost_foldl_process ε now (due_posts db now) db hB j
    have hfind : (due_posts db now).find? (fun r => r.post.id == j) =
        none := by
      rw [List.find?_eq_none]
      intro r hr hrj
      apply hj
      rw [← eq_of_beq hrj]
      exact List.mem_map.mpr ⟨r, hr, rfl⟩
    unfold runIteration
    rw [hchar, hfind]

/-- Witness for C1 on the one-post database `wDB` with every call
succeeding: its one due row ends marked `sent`. -/
theorem worker_batch_outcomes_app :
    getPost (runIteration allOk wDB 0) wRow.post.id =
      some { wRow.post with
        status := if (send_post allOk wRow).ok then Status.sent
          else Status.failed,
        sent_at := some (0 : Int) } :=
  (worker_batch_outcomes allOk wDB 0 (by decide) (by decide)).1 wRow
    (by decide)

/-! ## Claim C4 -/

theorem due_rows_pending {db : DBState} {now : Int} {r : DuePostRow}
    (h : r ∈ due_posts db now) :
    r.post.status = Status.pending ∧ r.post.scheduled_for ≤ now := by
  have h1 := (List.mem_filter.mp (mem_due_posts h)).2
  unfold dueFilter at h1
  rw [Bool.and_eq_true] at h1
  exact ⟨eq_of_beq h1.1, of_decide_eq_true h1.2⟩

theorem terminal_frozen_step (ε : PlatformCall → Bool) (db : DBState)
    (now : Int) (hP : (db.posts.map fun p => p.id).Nodup)
    (hC : (db.channels.map fun c => c.id).Nodup) (j : Nat)
    (p : ScheduledPost) (hg : getPost db j = some p)
    (hterm : p.status ≠ Status.pending) :
    getPost (runIteration ε db now) j = some p := by
  have hB : ((due_posts db now).map fun r => r.post.id).Nodup :=
    due_posts_ids_nodup db now hP hC
  have hchar := getPost_foldl_process ε now (due_posts db now) db hB j
  have hfind : (due_posts db now).find? (fun r => r.post.id == j) =
      none := by
    rw [List.find?_eq_none]
    intro r hr hrj
    have hpend := (due_rows_pending hr).1
    have hrpm : r.post ∈ db.posts :=
      (mem_joinRows ((List.mem_filter.mp (mem_due_posts hr)).1)).1
    have hpm : p ∈ db.posts := getPost_some_mem hg
    have heq : r.post = p := by
      apply List.inj_on_of_nodup_map hP hrpm hpm
      show r.post.id = p.id
      rw [eq_of_beq hrj]
      exact (eq_of_beq (getPost_some_id hg)).symm
    exact hterm (by rw [← heq]; exact hpend)
  unfold runIteration
  rw [hchar, hfind, hg]

theorem pending_step (ε : PlatformCall → Bool) (db : DBState) (now : Int)
    (hP : (db.posts.map fun p => p.id).Nodup)
    (hC : (db.channels.map fun c => c.id).Nodup) (j : Nat)
    (p : ScheduledPost) (hg : getPost db j = some p) :
    getPost (runIteration ε db now) j = some p ∨
    ∃ st, (st = Status.sent ∨ st = Status.failed) ∧
      getPost (runIteration ε db now) j =
        some { p with status := st, sent_at := some now } := by
  have hB : ((due_posts db now).map fun r => r.post.id).Nodup :=
    due_posts_ids_nodup db now hP hC
  have hchar := getPost_foldl_process ε now (due_posts db now) db hB j
  cases hfind : (due_posts db now).find? (fun r => r.post.id == j) with
  | none =>
    left
    unfold runIteration
    rw [hchar, hfind]
    exact hg
  | some r =>
    right
    refine ⟨outcome ε r, ?_, ?_⟩
    · unfold outcome
      by_cases h : (send_post ε r).ok = true <;> simp [h]
    · unfold runIteration
      rw [hchar, hfind]
      show (getPost db j).map (markPost (outcome ε r) now) = _
      rw [hg]
      rfl

theorem runTrace_channels :
    ∀ (steps : List ((PlatformCall → Bool) × Int)) (db : DBState),
      (runTrace db steps).channels = db.channels
  | [], _ => rfl
  | s :: steps, db => by
    show (runTrace (runIteration s.1 db s.2) steps).channels = _
    rw [runTrace_channels steps, runIteration_channels]

theorem runTrace_ids :
    ∀ (steps : List ((PlatformCall → Bool) × Int)) (db : DBState),
      ((runTrace db steps).posts.map fun p => p.id) =
        db.posts.map fun p => p.id
  | [], _ => rfl
  | s :: steps, db => by
    show ((runTrace (runIteration s.1 db s.2) steps).posts.map
      fun p => p.id) = _
    rw [runTrace_ids steps, runIteration_ids]

theorem terminal_frozen_trace :
    ∀ (steps : List ((PlatformCall → Bool) × Int)) (db : DBState),
      (db.posts.map fun p => p.id).Nodup →
      (db.channels.map fun c => c.id).Nodup →
      ∀ (j : Nat) (p : ScheduledPost), getPost db j = some p →
        p.status ≠ Status.pending →
        getPost (runTrace db steps) j = some p
  | [], _, _, _, _, _, hg, _ => hg
  | s :: steps, db, hP, hC, j, p, hg, ht => by
    have hP' : ((runIteration s.1 db s.2).posts.map fun p => p.id).Nodup :=
      by rw [runIteration_ids]; exact hP
    have hC' :
        ((runIteration s.1 db s.2).channels.map fun c => c.id).Nodup := by
      rw [runIteration_channels]; exact hC
    show getPost (runTrace (runIteration s.1 db s.2) steps) j = some p
    exact terminal_frozen_trace steps _ hP' hC' j p
      (terminal_frozen_step s.1 db s.2 hP hC j p hg ht) ht

/-- C4: a post's status is terminal once set — a post whose status is not
`pending` is bit-for-bit unchanged (status and `sent_at` included) by any
sequence of worker iterations; a pending post is, in one iteration,
either untouched or moved to `sent`/`failed` with `sent_at` set to that
iteration's `NOW()` at the moment it leaves `pending`; and a freshly
scheduled post starts as `pending` with `sent_at = NULL`. -/
theorem post_status_monotone (db : DBState)
    (hP : (db.posts.map fun p => p.id).Nodup)
    (hC : (db.channels.map fun c => c.id).Nodup) :
    (∀ (steps : List ((PlatformCall → Bool) × Int)) (j : Nat)
        (p : ScheduledPost), getPost db j = some p →
      p.status ≠ Status.pending → getPost (runTrace db steps) j = some p) ∧
    (∀ (ε : PlatformCall → Bool) (now : Int) (j : Nat)
        (p : ScheduledPost), getPost db j = some p →
      getPost (runIteration ε db now) j = some p ∨
      ∃ st, (st = Status.sent ∨ st = Status.failed) ∧
        getPost (runIteration ε db now) j =
          some { p with status := st, sent_at := some now }) ∧
    (∀ new_id channel_id user_id text media scheduled_for,
      (schedule_post db new_id channel_id user_id text media
          scheduled_for).posts =
        db.posts ++ [⟨new_id, channel_id, user_id, text, media,
          scheduled_for, Status.pending, none⟩]) :=
  ⟨fun steps => terminal_frozen_trace steps db hP hC,
    fun ε now => pending_step ε db now hP hC,
    fun _ _ _ _ _ _ => rfl⟩

/-- Witness for C4 on `wDB2`: the already-sent post survives an iteration
unchanged, and the pending post is either untouched or terminally marked. -/
theorem post_status_monotone_app :
    getPost (runTrace wDB2 [(allOk, 5)]) 2 = some wPostSent ∧
    (getPost (runIteration allOk wDB2 5) 1 = some wPost ∨
      ∃ st, (st = Status.sent ∨ st = Status.failed) ∧
        getPost (runIteration allOk wDB2 5) 1 =
          some { wPost with status := st, sent_at := some (5 : Int) }) :=
  ⟨(post_status_monotone wDB2 (by decide) (by decide)).1 [(allOk, 5)] 2
      wPostSent (by decide) (by decide),
    (post_status_monotone wDB2 (by decide) (by decide)).2.1 allOk 5 1 wPost
      (by decide)⟩

/-! ## Claim C8 -/

theorem iterFrom_succ (ε : PlatformCall → Bool) (nows : Nat → Int) :
    ∀ (m i : Nat) (db : DBState),
      iterFrom ε nows i (m + 1) db =
        runIteration ε (iterFrom ε nows i m db) (nows (i + m))
  | 0, i, db => by simp [iterFrom]
  | m + 1, i, db => by
    show iterFrom ε nows (i + 1) (m + 1) (runIteration ε db (nows i)) = _
    rw [iterFrom_succ ε nows m (i + 1)]
    rw [show i + 1 + m = i + (m + 1) from by omega]
    rfl

theorem loopState_eq_iterFrom (ε : PlatformCall → Bool) (nows : Nat → Int) :
    ∀ (n : Nat) (db : DBState),
      loopState ε nows db n = iterFrom ε nows 0 n db
  | 0, _ => rfl
  | n + 1, db => by
    show runIteration ε (loopState ε nows db n) (nows n) = _
    rw [loopState_eq_iterFrom ε nows n db, iterFrom_succ, Nat.zero_add]

theorem runLoop_exit (ε : PlatformCall → Bool) (stopSet : Nat → Bool)
    (nows : Nat → Int) :
    ∀ (m i fuel : Nat) (db : DBState),
      (∀ k, k < m → stopSet (i + k) = false) → stopSet (i + m) = true →
      m < fuel →
      runLoop ε stopSet nows i fuel db = iterFrom ε nows i m db
  | 0, i, fuel, db, _, htrue, hfuel => by
    cases fuel with
    | zero => omega
    | succ f =>
      rw [Nat.add_zero] at htrue
      show (if stopSet i = true then db
        else runLoop ε stopSet nows (i + 1) f (runIteration ε db (nows i)))
          = db
      rw [if_pos htrue]
  | m + 1, i, fuel, db, hfalse, htrue, hfuel => by
    cases fuel with
    | zero => omega
    | succ f =>
      have h0 : stopSet i = false := by
        have := hfalse 0 (by omega)
        rwa [Nat.add_zero] at this
      show (if stopSet i = true then db
        else runLoop ε stopSet nows (i + 1) f (runIteration ε db (nows i)))
          = _
      rw [if_neg (by simp [h0])]
      exact runLoop_exit ε stopSet nows m (i + 1) f _
        (fun k hk => by
          have := hfalse (k + 1) (by omega)
          rwa [show i + (k + 1) = i + 1 + k from by omega] at this)
        (by rwa [show i + (m + 1) = i + 1 + m from by omega] at htrue)
        (by omega)

theorem loopState_ids (ε : PlatformCall → Bool) (nows : Nat → Int)
    (db : DBState) :
    ∀ n : Nat, ((loopState ε nows db n).posts.map fun p => p.id) =
      db.posts.map fun p => p.id
  | 0 => rfl
  | n + 1 => by
    show ((runIteration ε (loopState ε nows db n) (nows n)).posts.map
      fun p => p.id) = _
    rw [runIteration_ids, loopState_ids ε nows db n]

theorem loopState_channels (ε : PlatformCall → Bool) (nows : Nat → Int)
    (db : DBState) :
    ∀ n : Nat, (loopState ε nows db n).channels = db.channels
  | 0 => rfl
  | n + 1 => by
    show (runIteration ε (loopState ε nows db n) (nows n)).channels = _
    rw [runIteration_channels, loopState_channels ε nows db n]

theorem terminal_frozen_between (ε : PlatformCall → Bool)
    (nows : Nat → Int) (db : DBState)
    (hP : (db.posts.map fun p => p.id).Nodup)
    (hC : (db.channels.map fun c => c.id).Nodup) :
    ∀ (d m : Nat) (j : Nat) (p : ScheduledPost),
      getPost (loopState ε nows db m) j = some p →
      p.status ≠ Status.pending →
      getPost (loopState ε nows db (m + d)) j = some p
  | 0, _, _, _, hg, _ => hg
  | d + 1, m, j, p, hg, ht => by
    have hstep := terminal_frozen_between ε nows db hP hC d m j p hg ht
    show getPost (runIteration ε (loopState ε nows db (m + d))
      (nows (m + d))) j = some p
    apply terminal_frozen_step
    · rw [loopState_ids]
      exact hP
    · rw [loopState_channels]
      exact hC
    · exact hstep
    · exact ht

/-- C8: the stop event is consulted only at the top of the `while` loop,
so when it is first observed set at check `n`, the loop returns exactly
the state produced by the `n` full iterations before it — every post of
every batch fetched in those iterations has been attempted and carries a
terminal (non-`pending`) status at exit — and `stop` is idempotent and
total: a second call observes `task = None` and returns without error,
the join having already produced the final state. -/
theorem stop_join_semantics (ε : PlatformCall → Bool)
    (stopSet : Nat → Bool) (nows : Nat → Int) (db : DBState)
    (n fuel : Nat) (hP : (db.posts.map fun p => p.id).Nodup)
    (hC : (db.channels.map fun c => c.id).Nodup)
    (hbefore : ∀ k, k < n → stopSet k = false)
    (hstop : stopSet n = true) (hfuel : n < fuel) :
    (runLoop ε stopSet nows 0 fuel db = loopState ε nows db n) ∧
    (∀ k, k < n → ∀ row ∈ due_posts (loopState ε nows db k) (nows k),
      ∃ p, getPost (loopState ε nows db n) row.post.id = some p ∧
        p.status ≠ Status.pending) ∧
    (∀ w : WorkerCtl,
      WorkerCtl.stop (WorkerCtl.stop w) = WorkerCtl.stop w ∧
      (WorkerCtl.stop w).stop_event = true) := by
  refine ⟨?_, ?_, ?_⟩
  · rw [runLoop_exit ε stopSet nows n 0 fuel db
      (fun k hk => by rw [Nat.zero_add]; exact hbefore k hk)
      (by rwa [Nat.zero_add]) hfuel]
    rw [loopState_eq_iterFrom]
  · intro k hk row hrow
    have hPk : ((loopState ε nows db k).posts.map fun p => p.id).Nodup := by
      rw [loopState_ids]
      exact hP
    have hCk :
        ((loopState ε nows db k).channels.map fun c => c.id).Nodup := by
      rw [loopState_channels]
      exact hC
    have hmark := batch_row_marked ε (loopState ε nows db k) (nows k)
      hPk hCk row hrow
    have hstatus : (markPost (outcome ε row) (nows k) row.post).status ≠
        Status.pending := by
      unfold markPost outcome
      by_cases h : (send_post ε row).ok = true <;> simp [h]
    have hfro := terminal_frozen_between ε nows db hP hC (n - (k + 1))
      (k + 1) row.post.id (markPost (outcome ε row) (nows k) row.post)
      hmark hstatus
    rw [show k + 1 + (n - (k + 1)) = n from by omega] at hfro
    exact ⟨markPost (outcome ε row) (nows k) row.post, hfro, hstatus⟩
  · intro w
    cases w with
    | mk task ev => cases task <;> exact ⟨rfl, rfl⟩

/-- Witness for C8: the stop event set at the second check stops the loop
after one full iteration of `wDB`. -/
theorem stop_join_semantics_app :
    (runLoop allOk (fun k => decide (1 ≤ k)) (fun _ => 0) 0 2 wDB =
      loopState allOk (fun _ => 0) wDB 1) ∧
    (∀ k, k < 1 →
      ∀ row ∈ due_posts (loopState allOk (fun _ => 0) wDB k) 0,
      ∃ p, getPost (loopState allOk (fun _ => 0) wDB 1) row.post.id =
        some p ∧ p.status ≠ Status.pending) ∧
    (∀ w : WorkerCtl,
      WorkerCtl.stop (WorkerCtl.stop w) = WorkerCtl.stop w ∧
      (WorkerCtl.stop w).stop_event = true) :=
  stop_join_semantics allOk (fun k => decide (1 ≤ k)) (fun _ => 0) wDB 1 2
    (by decide) (by decide)
    (fun k hk => by
      simp only [decide_eq_false_iff_not]
      omega)
    (by decide) (by decide)

/-! ## Claim C3 -/

theorem markFold_cons (ε : PlatformCall → Bool) (now : Int)
    (r : DuePostRow) (B : List DuePostRow) (p : ScheduledPost) :
    markFold ε now (r :: B) p =
      markFold ε now B
        (if p.id == r.post.id then markPost (outcome ε r) now p else p) :=
  rfl

theorem markFold_id (ε : PlatformCall → Bool) (now : Int) :
    ∀ (B : List DuePostRow) (p : ScheduledPost),
      (markFold ε now B p).id = p.id
  | [], _ => rfl
  | r :: B, p => by
    rw [markFold_cons, markFold_id ε now B]
    exact mark_fun_id r.post.id (outcome ε r) now p

theorem markFold_channel_id (ε : PlatformCall → Bool) (now : Int) :
    ∀ (B : List DuePostRow) (p : ScheduledPost),
      (markFold ε now B p).channel_id = p.channel_id
  | [], _ => rfl
  | r :: B, p => by
    rw [markFold_cons, markFold_channel_id ε now B]
    by_cases hc : (p.id == r.post.id) = true
    · rw [if_pos hc]
      rfl
    · rw [if_neg hc]

theorem markFold_not_mem (ε : PlatformCall → Bool) (now : Int) :
    ∀ (B : List DuePostRow) (p : ScheduledPost),
      p.id ∉ B.map (fun r => r.post.id) → markFold ε now B p = p
  | [], _, _ => rfl
  | r :: B, p, h => by
    simp only [List.map_cons, List.mem_cons, not_or] at h
    obtain ⟨h1, h2⟩ := h
    rw [markFold_cons, if_neg (by simp [beq_eq_false_iff_ne.mpr h1])]
    exact markFold_not_mem ε now B p h2

theorem markFold_nonpending (ε : PlatformCall → Bool) (now : Int) :
    ∀ (B : List DuePostRow) (q : ScheduledPost),
      q.status ≠ Status.pending →
      (markFold ε now B q).status ≠ Status.pending
  | [], _, h => h
  | r :: B, q, h => by
    rw [markFold_cons]
    apply markFold_nonpending ε now B
    by_cases hc : (q.id == r.post.id) = true
    · rw [if_pos hc]
      unfold markPost outcome
      by_cases hok : (send_post ε r).ok = true <;> simp [hok]
    · rw [if_neg hc]
      exact h

theorem markFold_mem_status (ε : PlatformCall → Bool) (now : Int) :
    ∀ (B : List DuePostRow) (p : ScheduledPost),
      p.id ∈ B.map (fun r => r.post.id) →
      (markFold ε now B p).status ≠ Status.pending
  | [], _, h => absurd h (List.not_mem_nil _)
  | r :: B, p, h => by
    rw [markFold_cons]
    by_cases hc : (p.id == r.post.id) = true
    · rw [if_pos hc]
      apply markFold_nonpending ε now B
      unfold markPost outcome
      by_cases hok : (send_post ε r).ok = true <;> simp [hok]
    · rw [if_neg hc]
      simp only [List.map_cons, List.mem_cons] at h
      rcases h with h1 | h2
      · exact absurd (beq_iff_eq.mpr h1) hc
      · exact markFold_mem_status ε now B p h2

theorem foldl_process_posts (ε : PlatformCall → Bool) (now : Int) :
    ∀ (B : List DuePostRow) (db : DBState),
      (B.foldl (processPost ε now) db).posts =
        db.posts.map (markFold ε now B)
  | [], db => by
    show db.posts = db.posts.map (markFold ε now [])
    rw [show markFold ε now [] = fun p => p from rfl, List.map_id']
  | r :: B, db => by
    rw [List.foldl_cons, processPost_eq, foldl_process_posts ε now B]
    show (db.posts.map _).map _ = _
    rw [List.map_map]
    rfl

theorem runIteration_posts (ε : PlatformCall → Bool) (db : DBState)
    (now : Int) :
    (runIteration ε db now).posts =
      db.posts.map (markFold ε now (due_posts db now)) :=
  foldl_process_posts ε now _ db

theorem joinRows_map_posts (cs : List Channel)
    (F : ScheduledPost → ScheduledPost)
    (hF : ∀ p, (F p).channel_id = p.channel_id) :
    ∀ ps : List ScheduledPost,
      joinRows ⟨cs, ps.map F⟩ = (joinRows ⟨cs, ps⟩).map
        (fun r => ⟨F r.post, r.telegram_channel, r.vk_group_id⟩)
  | [] => rfl
  | p :: ps => by
    show ((cs.filter fun c => c.id == (F p).channel_id).map fun c =>
        (⟨F p, c.telegram_channel, c.vk_group_id⟩ : DuePostRow)) ++
          joinRows ⟨cs, ps.map F⟩ = _
    rw [hF p, joinRows_map_posts cs F hF ps]
    show _ = (((cs.filter fun c => c.id == p.channel_id).map fun c =>
        (⟨p, c.telegram_channel, c.vk_group_id⟩ : DuePostRow)) ++
          joinRows ⟨cs, ps⟩).map _
    rw [List.map_append, List.map_map]
    rfl

theorem joinRows_after_iteration (ε : PlatformCall → Bool) (db : DBState)
    (now : Int) :
    joinRows (runIteration ε db now) =
      (joinRows db).map
        (fun r => ⟨markFold ε now (due_posts db now) r.post,
          r.telegram_channel, r.vk_group_id⟩) := by
  calc joinRows (runIteration ε db now)
      = joinRows ⟨(runIteration ε db now).channels,
          (runIteration ε db now).posts⟩ := by rw [db_eta]
    _ = joinRows ⟨db.channels,
          db.posts.map (markFold ε now (due_posts db now))⟩ := by
        rw [runIteration_channels, runIteration_posts]
    _ = (joinRows ⟨db.channels, db.posts⟩).map _ :=
        joinRows_map_posts db.channels _
          (fun p => markFold_channel_id ε now _ p) db.posts
    _ = _ := by rw [db_eta]

theorem sorted_due_ids_nodup (db : DBState) (now : Int)
    (hP : (db.posts.map fun p => p.id).Nodup)
    (hC : (db.channels.map fun c => c.id).Nodup) :
    ((((joinRows db).filter (dueFilter now)).insertionSort dueLE).map
      fun r => r.post.id).Nodup := by
  have h1 : ((joinRows db).map fun r => r.post.id).Nodup := by
    rw [← db_eta db]
    exact joinRows_ids_nodup db.posts db.channels hP hC
  have h2 : (((joinRows db).filter (dueFilter now)).map
      fun r => r.post.id).Nodup :=
    h1.sublist ((List.filter_sublist _).map _)
  exact ((List.perm_insertionSort dueLE _).map _).symm.nodup h2

theorem next_poll_due_set (ε : PlatformCall → Bool) (db : DBState)
    (now : Int) (hP : (db.posts.map fun p => p.id).Nodup)
    (hC : (db.channels.map fun c => c.id).Nodup) :
    List.Perm
      ((joinRows (runIteration ε db now)).filter (dueFilter now))
      ((((joinRows db).filter (dueFilter now)).insertionSort dueLE).drop
        25) := by
  have hjnd : ((joinRows db).map fun r => r.post.id).Nodup := by
    rw [← db_eta db]
    exact joinRows_ids_nodup db.posts db.channels hP hC
  have hsnd := sorted_due_ids_nodup db now hP hC
  have hsrow_nd :
      (((joinRows db).filter (dueFilter now)).insertionSort dueLE).Nodup :=
    hsnd.of_map _
  have hdisj :=
    List.disjoint_take_drop (l :=
      ((joinRows db).filter (dueFilter now)).insertionSort dueLE)
      hsrow_nd (Nat.le_refl 25)
  -- the effect of the iteration on the join
  rw [joinRows_after_iteration ε db now]
  -- a marked row keeps no longer passing the filter
  have hA : ∀ r : DuePostRow,
      r.post.id ∈ (due_posts db now).map (fun r => r.post.id) →
      dueFilter now
        (⟨markFold ε now (due_posts db now) r.post,
          r.telegram_channel, r.vk_group_id⟩ : DuePostRow) = false := by
    intro r hid
    have hst := markFold_mem_status ε now (due_posts db now) r.post hid
    unfold dueFilter
    rw [show ((⟨markFold ε now (due_posts db now) r.post,
        r.telegram_channel, r.vk_group_id⟩ : DuePostRow).post.status ==
          Status.pending) = false from beq_eq_false_iff_ne.mpr hst]
    rfl
  -- an unmarked row is unchanged
  have hB2 : ∀ r : DuePostRow,
      r.post.id ∉ (due_posts db now).map (fun r => r.post.id) →
      (⟨markFold ε now (due_posts db now) r.post,
        r.telegram_channel, r.vk_group_id⟩ : DuePostRow) = r := by
    intro r hid
    rw [markFold_not_mem ε now (due_posts db now) r.post hid]
  -- Nodup of the filtered mapped join
  have hmap_ids :
      (((joinRows db).map fun r =>
        (⟨markFold ε now (due_posts db now) r.post,
          r.telegram_channel, r.vk_group_id⟩ : DuePostRow)).map
            fun r => r.post.id) =
        (joinRows db).map fun r => r.post.id := by
    rw [List.map_map]
    exact List.map_congr_left fun r _ =>
      markFold_id ε now (due_posts db now) r.post
  have nd1 : ((((joinRows db).map fun r =>
      (⟨markFold ε now (due_posts db now) r.post,
        r.telegram_channel, r.vk_group_id⟩ : DuePostRow)).filter
          (dueFilter now))).Nodup := by
    apply List.Nodup.of_map (fun r : DuePostRow => r.post.id)
    apply List.Nodup.sublist ((List.filter_sublist _).map _)
    rw [hmap_ids]
    exact hjnd
  have nd2 :
      (((((joinRows db).filter (dueFilter now)).insertionSort
        dueLE)).drop 25).Nodup :=
    hsrow_nd.sublist (List.drop_sublist _ _)
  -- forward inclusion
  have hfwd : ∀ x, x ∈ ((joinRows db).map fun r =>
      (⟨markFold ε now (due_posts db now) r.post,
        r.telegram_channel, r.vk_group_id⟩ : DuePostRow)).filter
          (dueFilter now) →
      x ∈ ((((joinRows db).filter (dueFilter now)).insertionSort
        dueLE)).drop 25 := by
    intro x hx
    rw [List.mem_filter] at hx
    obtain ⟨hx1, hx2⟩ := hx
    obtain ⟨r, hr, rfl⟩ := List.mem_map.mp hx1
    by_cases hid : r.post.id ∈ (due_posts db now).map fun r => r.post.id
    · rw [hA r hid] at hx2
      exact absurd hx2 (by simp)
    · rw [hB2 r hid] at hx2 ⊢
      have hrS : r ∈ (joinRows db).filter (dueFilter now) :=
        List.mem_filter.mpr ⟨hr, hx2⟩
      have hrsort :
          r ∈ ((joinRows db).filter (dueFilter now)).insertionSort dueLE :=
        (List.mem_insertionSort dueLE).mpr hrS
      rw [← List.take_append_drop 25
        (((joinRows db).filter (dueFilter now)).insertionSort dueLE)]
        at hrsort
      rcases List.mem_append.mp hrsort with htake | hdrop
      · exact absurd (List.mem_map.mpr ⟨r, htake, rfl⟩) hid
      · exact hdrop
  -- backward inclusion
  have hbwd : ∀ x,
      x ∈ ((((joinRows db).filter (dueFilter now)).insertionSort
        dueLE)).drop 25 →
      x ∈ ((joinRows db).map fun r =>
        (⟨markFold ε now (due_posts db now) r.post,
          r.telegram_channel, r.vk_group_id⟩ : DuePostRow)).filter
            (dueFilter now) := by
    intro x hx
    have hxsort :
        x ∈ ((joinRows db).filter (dueFilter now)).insertionSort dueLE :=
      List.mem_of_mem_drop hx
    have hxS := (List.mem_insertionSort dueLE).mp hxsort
    rw [List.mem_filter] at hxS
    obtain ⟨hxj, hxdue⟩ := hxS
    have hid : x.post.id ∉ (due_posts db now).map fun r => r.post.id := by
      intro hmem
      obtain ⟨rb, hrb, hrbid⟩ := List.mem_map.mp hmem
      have hrbs :
          rb ∈ ((joinRows db).filter (dueFilter now)).insertionSort
            dueLE :=
        List.mem_of_mem_take hrb
      have heq : rb = x :=
        List.inj_on_of_nodup_map hsnd hrbs hxsort hrbid
      exact hdisj (heq ▸ hrb) hx
    apply List.mem_filter.mpr
    exact ⟨List.mem_map.mpr ⟨x, hxj, hB2 x hid⟩, hxdue⟩
  exact List.perm_of_nodup_nodup_toFinset_eq nd1 nd2 (by
    ext a
    simp only [List.mem_toFinset]
    exact ⟨hfwd a, hbwd a⟩)

/-- C3: `due_posts` returns only pending posts due by `now`, joined with
their channel's `telegram_channel` and `vk_group_id`, in non-decreasing
`scheduled_for` order, at most 25 of them; when no more than 25 rows are
due it returns exactly the due set (a pure read — it is a function of the
state); and after the worker processes the returned batch, the posts
still due are exactly those beyond the cap, so a subsequent call selects
them. -/
theorem due_posts_contract (db : DBState) (now : Int)
    (ε : PlatformCall → Bool)
    (hP : (db.posts.map fun p => p.id).Nodup)
    (hC : (db.channels.map fun c => c.id).Nodup) :
    (∀ r ∈ due_posts db now,
      r.post.status = Status.pending ∧ r.post.scheduled_for ≤ now ∧
      r.post ∈ db.posts ∧ ∃ c ∈ db.channels,
        c.id = r.post.channel_id ∧
        r.telegram_channel = c.telegram_channel ∧
        r.vk_group_id = c.vk_group_id) ∧
    List.Sorted dueLE (due_posts db now) ∧
    (due_posts db now).length ≤ 25 ∧
    (((joinRows db).filter (dueFilter now)).length ≤ 25 →
      ∀ r, r ∈ (joinRows db).filter (dueFilter now) ↔
        r ∈ due_posts db now) ∧
    List.Perm ((joinRows (runIteration ε db now)).filter (dueFilter now))
      ((((joinRows db).filter (dueFilter now)).insertionSort dueLE).drop
        25) := by
  refine ⟨?_, ?_, ?_, ?_, next_poll_due_set ε db now hP hC⟩
  · intro r hr
    have hpend := due_rows_pending hr
    have hj := mem_joinRows (List.mem_filter.mp (mem_due_posts hr)).1
    exact ⟨hpend.1, hpend.2, hj.1, hj.2⟩
  · exact List.Pairwise.sublist (List.take_sublist _ _)
      (List.sorted_insertionSort dueLE _)
  · unfold due_posts
    rw [List.length_take]
    exact min_le_left _ _
  · intro hlen r
    have hslen :
        (((joinRows db).filter (dueFilter now)).insertionSort
          dueLE).length ≤ 25 := by
      rw [List.length_insertionSort]
      exact hlen
    have htake :
        (((joinRows db).filter (dueFilter now)).insertionSort
          dueLE).take 25 =
          ((joinRows db).filter (dueFilter now)).insertionSort dueLE :=
      List.take_of_length_le hslen
    constructor
    · intro hrS
      show r ∈ (((joinRows db).filter (dueFilter now)).insertionSort
        dueLE).take 25
      rw [htake]
      exact (List.mem_insertionSort dueLE).mpr hrS
    · intro hrB
      exact (List.mem_insertionSort dueLE).mp
        (by rw [← htake]; exact hrB)

/-- Witness for C3 on `wDB`: its one due row satisfies the membership
contract and the batch respects the cap. -/
theorem due_posts_contract_app :
    (wRow.post.status = Status.pending ∧ wRow.post.scheduled_for ≤ 0 ∧
      wRow.post ∈ wDB.posts ∧ ∃ c ∈ wDB.channels,
        c.id = wRow.post.channel_id ∧
        wRow.telegram_channel = c.telegram_channel ∧
        wRow.vk_group_id = c.vk_group_id) ∧
    (due_posts wDB 0).length ≤ 25 :=
  ⟨(due_posts_contract wDB 0 allOk (by decide) (by decide)).1 wRow
      (by decide),
    (due_posts_contract wDB 0 allOk (by decide) (by decide)).2.2.1⟩

end CrosspostBot
